import Mathlib

/-!
Shallow embedding of the DRAW Telegram bot webhook core
(`src/app/api/telegram/route.ts`): the Supabase-backed points ledger
(`getUser`, `createUser`, `ensureUser`, `updatePoints`), the in-memory
pending-task store (`pendingTasks`), and the command dispatch of the `POST`
handler (guess branch, `/start`, `/points`, `/click`, `/video`, `/ad`,
`/done video`, `/done ad`, `/guess`, fallback).

Strings are modelled as Lean `String`s; `text.startsWith(p)` and
`text.includes(s)` are modelled by explicit character-list functions
`sStarts` and `strContains`; JavaScript `parseInt(text, 10)` is modelled by
`parseIntJS` (optional sign followed by the longest digit run; `none` plays
the role of `NaN`). `Math.random()` is modelled as a rational input in
`[0,1)` threaded into the handler.
-/

namespace DrawBot

/-- Ledger table `users`, keyed by `telegram_id`: an association list of
(telegram id, points). Row order is irrelevant to every lookup. -/
abbrev DB := List (Nat × Int)

/-- Line 77: `SELECT * ... eq('telegram_id', id) ... maybeSingle()` —
the points of the row for `id`, if present. -/
def getUser (db : DB) (id : Nat) : Option Int :=
  (db.find? (fun p => p.1 == id)).map (fun p => p.2)

/-- Line 91: `INSERT { telegram_id, points: 0, created_at }`. -/
def createUser (db : DB) (id : Nat) : DB :=
  db ++ [(id, 0)]

/-- Lines 122-125: `UPDATE users SET points = v WHERE telegram_id = id`.
PostgREST updates exactly the matching rows and reports no error when none
match, so on an absent id this is a no-op. -/
def dbUpdate (db : DB) (id : Nat) (v : Int) : DB :=
  db.map (fun p => if p.1 == id then (p.1, v) else p)

/-- Lines 109-113: get the row, creating it with `points = 0` if absent. -/
def ensureUser (db : DB) (id : Nat) : DB :=
  match getUser db id with
  | some _ => db
  | none => createUser db id

/-- The balance the handler observes: `user?.points ?? 0`. -/
def balanceOf (db : DB) (id : Nat) : Int :=
  (getUser db id).getD 0

/-- Lines 117-129: read the current points (defaulting to 0), add `delta`,
and UPDATE the row; returns the new db together with `newPts` (which the
caller interpolates into its reply). -/
def updatePoints (db : DB) (id : Nat) (delta : Int) : DB × Int :=
  let current := balanceOf db id
  let newPts := current + delta
  (dbUpdate db id newPts, newPts)

/-- Line 146: `type PendingTask = { type: 'video' | 'ad' | 'guess'; number? }`.
The `number` field is only ever set together with `type: 'guess'`. -/
inductive PendingTask
  | video
  | ad
  | guess (number : Int)
  deriving DecidableEq, Repr

/-- The global `pendingTasks` record, keyed by `String(chatId)`. -/
abbrev Tasks := List (Nat × PendingTask)

/-- Record lookup `pendingTasks[key]`. -/
def tasksGet (ts : Tasks) (k : Nat) : Option PendingTask :=
  (ts.find? (fun p => p.1 == k)).map (fun p => p.2)

/-- Record assignment `pendingTasks[key] = v`. -/
def tasksSet (ts : Tasks) (k : Nat) (v : PendingTask) : Tasks :=
  (k, v) :: ts.filter (fun p => p.1 != k)

/-- Record deletion `delete pendingTasks[key]`. -/
def tasksDel (ts : Tasks) (k : Nat) : Tasks :=
  ts.filter (fun p => p.1 != k)

/-- Character-list model of JavaScript `String.prototype.startsWith`:
`listPre p l` holds when `p` is an initial run of `l`. -/
def listPre : List Char → List Char → Bool
  | [], _ => true
  | _ :: _, [] => false
  | a :: p, b :: l => a == b && listPre p l

/-- JavaScript `text.startsWith(pre)`. -/
def sStarts (text pre : String) : Bool :=
  listPre pre.toList text.toList

/-- listHas n l holds when `n` occurs contiguously somewhere in `l`. -/
def listHas : List Char → List Char → Bool
  | n, [] => listPre n []
  | n, c :: l => listPre n (c :: l) || listHas n l

/-- JavaScript `text.includes(sub)`. -/
def strContains (text sub : String) : Bool :=
  listHas sub.toList text.toList

/-- Numeric value of a run of decimal digits. -/
def digitsVal (cs : List Char) : Nat :=
  cs.foldl (fun a c => a * 10 + (c.toNat - 48)) 0

/-- JavaScript `parseInt(s, 10)` on already-trimmed text: an optional sign
followed by the longest leading run of decimal digits; `none` models `NaN`
(no digits at all). `parseInt("3.5") = 3`, `parseInt("abc") = NaN`. -/
def parseIntJS (s : String) : Option Int :=
  match s.toList with
  | '-' :: rest =>
      let ds := rest.takeWhile (fun c => c.isDigit)
      if ds.isEmpty then none else some (-(Int.ofNat (digitsVal ds)))
  | '+' :: rest =>
      let ds := rest.takeWhile (fun c => c.isDigit)
      if ds.isEmpty then none else some (Int.ofNat (digitsVal ds))
  | cs =>
      let ds := cs.takeWhile (fun c => c.isDigit)
      if ds.isEmpty then none else some (Int.ofNat (digitsVal ds))

/-- The two `/done` kinds, line 252: `text.includes('video') ? 'video' : 'ad'`. -/
inductive DoneKind
  | video
  | ad
  deriving DecidableEq, Repr

/-- Line 252 applied to the message text. -/
def doneKindOf (text : String) : DoneKind :=
  if strContains text "video" then DoneKind.video else DoneKind.ad

/-- Line 254: `current?.type === doneType` (a `guess` task matches neither kind). -/
def taskKindMatches : Option PendingTask → DoneKind → Bool
  | some PendingTask.video, DoneKind.video => true
  | some PendingTask.ad, DoneKind.ad => true
  | _, _ => false

/-- Reply classes, one per distinct `tgSendMessage` call site, carrying the
data interpolated into the message text. -/
inductive Reply
  /-- Line 187: correct guess message with the new total. -/
  | correctGuess (total : Int)
  /-- Line 189: wrong-guess message. -/
  | wrongGuess
  /-- Line 192: numeric-guidance message while a guess is pending. -/
  | guessGuidance
  /-- Lines 201-214: welcome text with the current balance. -/
  | welcome (pts : Int)
  /-- Line 220: balance display. -/
  | pointsMsg (pts : Int)
  /-- Line 226: click acknowledgement with the new total. -/
  | clickMsg (total : Int)
  /-- Lines 234-237: video instructions. -/
  | videoInstr
  /-- Lines 244-247: ad instructions. -/
  | adInstr
  /-- Line 258: done reward message with earned points and new total. -/
  | doneOk (pts total : Int)
  /-- Lines 260-263: no pending task of the named kind. -/
  | noPending (kind : DoneKind)
  /-- Line 271: guess-game start prompt. -/
  | beginGuessPrompt
  /-- Line 276: unknown-command fallback. -/
  | unknown
  deriving DecidableEq, Repr

/-- Result of one handler invocation: the stores after it, the single reply
produced, and the ledger delta it passed to `updatePoints` (0 when no
`updatePoints` call was made). -/
structure HandleResult where
  db : DB
  tasks : Tasks
  reply : Reply
  delta : Int
  deriving DecidableEq, Repr

/-- Lines 181-195: the guess branch, taken whenever the pending task for
`key` has type `guess`. Every message text is run through `parseInt`;
a non-`NaN` value is compared with the stored target. -/
def guessStep (db : DB) (ts : Tasks) (chatId : Nat) (text : String)
    (number : Int) : HandleResult :=
  match parseIntJS text with
  | some g =>
      if g = number then
        { db := (updatePoints db chatId 2).1, tasks := tasksDel ts chatId,
          reply := Reply.correctGuess (updatePoints db chatId 2).2, delta := 2 }
      else
        { db := db, tasks := ts, reply := Reply.wrongGuess, delta := 0 }
  | none =>
      { db := db, tasks := ts, reply := Reply.guessGuidance, delta := 0 }

/-- Line 255: `doneType === 'video' ? 5 : 3`. -/
def rewardOf : DoneKind → Int
  | DoneKind.video => 5
  | DoneKind.ad => 3

/-- Lines 251-266: the `/done video` / `/done ad` branch body. -/
def doneStep (db : DB) (ts : Tasks) (chatId : Nat) (text : String) :
    HandleResult :=
  if taskKindMatches (tasksGet ts chatId) (doneKindOf text) then
    { db := (updatePoints db chatId (rewardOf (doneKindOf text))).1,
      tasks := tasksDel ts chatId,
      reply := Reply.doneOk (rewardOf (doneKindOf text))
        (updatePoints db chatId (rewardOf (doneKindOf text))).2,
      delta := rewardOf (doneKindOf text) }
  else
    { db := db, tasks := ts, reply := Reply.noPending (doneKindOf text),
      delta := 0 }

/-- Lines 198-277: the command chain, reached when no guess is pending.
`rand` models the `Math.random()` draw of the `/guess` branch. -/
def commandStep (db : DB) (ts : Tasks) (chatId : Nat) (text : String)
    (rand : ℚ) : HandleResult :=
  if sStarts text "/start" then
    { db := ensureUser db chatId, tasks := ts,
      reply := Reply.welcome (balanceOf (ensureUser db chatId) chatId),
      delta := 0 }
  else if sStarts text "/points" then
    { db := ensureUser db chatId, tasks := ts,
      reply := Reply.pointsMsg (balanceOf (ensureUser db chatId) chatId),
      delta := 0 }
  else if sStarts text "/click" then
    { db := (updatePoints db chatId 1).1, tasks := ts,
      reply := Reply.clickMsg (updatePoints db chatId 1).2, delta := 1 }
  else if sStarts text "/video" then
    { db := db, tasks := tasksSet ts chatId PendingTask.video,
      reply := Reply.videoInstr, delta := 0 }
  else if sStarts text "/ad" then
    { db := db, tasks := tasksSet ts chatId PendingTask.ad,
      reply := Reply.adInstr, delta := 0 }
  else if sStarts text "/done video" || sStarts text "/done ad" then
    doneStep db ts chatId text
  else if sStarts text "/guess" then
    { db := db, tasks := tasksSet ts chatId (PendingTask.guess (⌊rand * 5⌋ + 1)),
      reply := Reply.beginGuessPrompt, delta := 0 }
  else
    { db := db, tasks := ts, reply := Reply.unknown, delta := 0 }

/-- Lines 176-277 of `POST`, on trimmed text: look up the pending task and
dispatch to the guess branch or the command chain. -/
def handleText (db : DB) (ts : Tasks) (chatId : Nat) (text : String)
    (rand : ℚ) : HandleResult :=
  match tasksGet ts chatId with
  | some (PendingTask.guess number) => guessStep db ts chatId text number
  | _ => commandStep db ts chatId text rand

/-- JavaScript `String.prototype.trim`: strip leading and trailing
whitespace. -/
def jsTrim (s : String) : String :=
  String.mk
    (((s.toList.dropWhile Char.isWhitespace).reverse.dropWhile
        Char.isWhitespace).reverse)

/-- One full invocation on the raw message text, including line 172's
`(message.text || '').trim()`. -/
def handle (db : DB) (ts : Tasks) (chatId : Nat) (raw : String)
    (rand : ℚ) : HandleResult :=
  handleText db ts chatId (jsTrim raw) rand

/-- One inbound webhook event: the chat id, the raw message text, and the
`Math.random()` draw the invocation would use if it reaches `/guess`. -/
structure Event where
  chatId : Nat
  text : String
  rand : ℚ

/-- Sequential processing of a list of inbound events. -/
def runEvents (db : DB) (ts : Tasks) : List Event → DB × Tasks
  | [] => (db, ts)
  | e :: rest =>
      runEvents (handle db ts e.chatId e.text e.rand).db
        (handle db ts e.chatId e.text e.rand).tasks rest

/-- All persisted balances are non-negative. -/
def nonnegDB (db : DB) : Prop :=
  ∀ p ∈ db, 0 ≤ p.2

/-- Execution phase of one in-flight `updatePoints` call. The body of
`updatePoints` (lines 117-129) is two separate store round-trips: the
`getUser` read and the `UPDATE` write; a concurrent invocation can be
scheduled between them. -/
inductive Phase
  | ready
  | readDone (current : Int)
  | finished
  deriving DecidableEq, Repr

/-- One in-flight `updatePoints(id, delta)` invocation. -/
structure Th where
  delta : Int
  phase : Phase
  deriving DecidableEq, Repr

/-- Advance one invocation by one store round-trip: `ready` performs the
`getUser` read of lines 118-119, `readDone current` performs the `UPDATE`
of lines 122-125 writing `current + delta`. -/
def thStep (db : DB) (id : Nat) (t : Th) : DB × Th :=
  match t.phase with
  | Phase.ready => (db, { t with phase := Phase.readDone (balanceOf db id) })
  | Phase.readDone c => (dbUpdate db id (c + t.delta), { t with phase := Phase.finished })
  | Phase.finished => (db, t)

/-- Run a schedule: each entry of the schedule names the invocation that
performs its next store round-trip. -/
def runSched (id : Nat) : DB → List Th → List Nat → DB × List Th
  | db, ths, [] => (db, ths)
  | db, ths, i :: rest =>
      match ths[i]? with
      | none => runSched id db ths rest
      | some t =>
          let r := thStep db id t
          runSched id r.1 (ths.set i r.2) rest

/-- n sequential (serialized) `updatePoints(u, 1)` calls. -/
def iterIncr (u : Nat) : Nat → DB → DB
  | 0, db => db
  | n + 1, db => iterIncr u n (updatePoints db u 1).1

/-! ### Store lemmas -/

theorem getUser_cons (k : Nat) (x : Int) (rest : DB) (B : Nat) :
    getUser ((k, x) :: rest) B = if k = B then some x else getUser rest B := by
  simp only [getUser, List.find?]
  by_cases h : k = B
  · subst h
    simp
  · have hb : (k == B) = false := by simpa using h
    simp [hb, h]

theorem tasksGet_cons (k : Nat) (x : PendingTask) (rest : Tasks) (B : Nat) :
    tasksGet ((k, x) :: rest) B = if k = B then some x else tasksGet rest B := by
  simp only [tasksGet, List.find?]
  by_cases h : k = B
  · subst h
    simp
  · have hb : (k == B) = false := by simpa using h
    simp [hb, h]

theorem dbUpdate_cons (k : Nat) (x : Int) (rest : DB) (A : Nat) (v : Int) :
    dbUpdate ((k, x) :: rest) A v =
      (if k = A then (k, v) else (k, x)) :: dbUpdate rest A v := by
  simp only [dbUpdate, List.map_cons]
  by_cases h : k = A
  · have hb : (k == A) = true := by simpa using h
    simp [hb, h]
  · have hb : (k == A) = false := by simpa using h
    simp [hb, h]

theorem tasksDel_cons (k : Nat) (x : PendingTask) (rest : Tasks) (A : Nat) :
    tasksDel ((k, x) :: rest) A =
      if k = A then tasksDel rest A else (k, x) :: tasksDel rest A := by
  simp only [tasksDel, List.filter]
  by_cases h : k = A
  · have hb : (k != A) = false := by simp [h]
    simp [hb, h]
  · have hb : (k != A) = true := by simp [h]
    simp [hb, h]

theorem tasksSet_eq (ts : Tasks) (A : Nat) (v : PendingTask) :
    tasksSet ts A v = (A, v) :: tasksDel ts A := rfl

theorem getUser_dbUpdate_ne (db : DB) (A B : Nat) (v : Int) (h : B ≠ A) :
    getUser (dbUpdate db A v) B = getUser db B := by
  induction db with
  | nil => rfl
  | cons p rest ih =>
      obtain ⟨k, x⟩ := p
      rw [dbUpdate_cons]
      by_cases hk : k = A
      · subst hk
        rw [if_pos rfl, getUser_cons, getUser_cons,
          if_neg (Ne.symm h), if_neg (Ne.symm h)]
        exact ih
      · rw [if_neg hk, getUser_cons, getUser_cons, ih]

theorem getUser_dbUpdate_self (db : DB) (A : Nat) (v : Int) (x : Int)
    (h : getUser db A = some x) :
    getUser (dbUpdate db A v) A = some v := by
  induction db with
  | nil => simp [getUser] at h
  | cons p rest ih =>
      obtain ⟨k, y⟩ := p
      rw [dbUpdate_cons]
      by_cases hk : k = A
      · subst hk
        rw [if_pos rfl, getUser_cons, if_pos rfl]
      · rw [getUser_cons, if_neg hk] at h
        rw [if_neg hk, getUser_cons, if_neg hk]
        exact ih h

theorem getUser_createUser (db : DB) (u B : Nat) :
    getUser (createUser db u) B =
      match getUser db B with
      | some x => some x
      | none => if u = B then some 0 else none := by
  induction db with
  | nil =>
      by_cases h : u = B <;> simp [createUser, getUser_cons, getUser, h]
  | cons p rest ih =>
      obtain ⟨k, x⟩ := p
      by_cases hk : k = B
      · simp [createUser, getUser_cons, hk]
      · simp only [createUser, List.cons_append] at *
        rw [getUser_cons, if_neg hk, getUser_cons, if_neg hk]
        exact ih

theorem getUser_ensureUser_ne (db : DB) (A B : Nat) (h : B ≠ A) :
    getUser (ensureUser db A) B = getUser db B := by
  unfold ensureUser
  cases hc : getUser db A with
  | some x => rfl
  | none =>
      rw [getUser_createUser]
      cases hb : getUser db B with
      | some x => rfl
      | none => simp [Ne.symm h]

theorem balanceOf_ensureUser (db : DB) (u v : Nat) :
    balanceOf (ensureUser db u) v = balanceOf db v := by
  unfold ensureUser
  cases hc : getUser db u with
  | some x => rfl
  | none =>
      unfold balanceOf
      rw [getUser_createUser]
      cases hb : getUser db v with
      | some x => rfl
      | none =>
          by_cases huv : u = v <;> simp [huv]

theorem tasksGet_del_ne (ts : Tasks) (A B : Nat) (h : B ≠ A) :
    tasksGet (tasksDel ts A) B = tasksGet ts B := by
  induction ts with
  | nil => rfl
  | cons p rest ih =>
      obtain ⟨k, x⟩ := p
      rw [tasksDel_cons]
      by_cases hk : k = A
      · subst hk
        rw [if_pos rfl, tasksGet_cons, if_neg (Ne.symm h)]
        exact ih
      · rw [if_neg hk, tasksGet_cons, tasksGet_cons, ih]

theorem tasksGet_set_ne (ts : Tasks) (A B : Nat) (v : PendingTask) (h : B ≠ A) :
    tasksGet (tasksSet ts A v) B = tasksGet ts B := by
  rw [tasksSet_eq, tasksGet_cons, if_neg (Ne.symm h), tasksGet_del_ne ts A B h]

theorem tasksGet_set_self (ts : Tasks) (A : Nat) (v : PendingTask) :
    tasksGet (tasksSet ts A v) A = some v := by
  rw [tasksSet_eq, tasksGet_cons, if_pos rfl]

theorem tasksGet_del_self (ts : Tasks) (A : Nat) :
    tasksGet (tasksDel ts A) A = none := by
  induction ts with
  | nil => rfl
  | cons p rest ih =>
      obtain ⟨k, x⟩ := p
      rw [tasksDel_cons]
      by_cases hk : k = A
      · rw [if_pos hk]
        exact ih
      · rw [if_neg hk, tasksGet_cons, if_neg hk]
        exact ih

/-! ### Non-negativity lemmas -/

theorem balanceOf_nonneg (db : DB) (id : Nat) (h : nonnegDB db) :
    0 ≤ balanceOf db id := by
  unfold balanceOf
  cases hc : getUser db id with
  | none => exact le_refl 0
  | some x =>
      simp only [Option.getD_some]
      unfold getUser at hc
      cases hf : db.find? (fun p => p.1 == id) with
      | none => rw [hf] at hc; simp at hc
      | some q =>
          rw [hf] at hc
          simp at hc
          have hq : q ∈ db := List.mem_of_find?_eq_some hf
          rw [← hc]
          exact h q hq

theorem nonnegDB_dbUpdate (db : DB) (id : Nat) (v : Int)
    (h : nonnegDB db) (hv : 0 ≤ v) : nonnegDB (dbUpdate db id v) := by
  intro p hp
  rcases List.mem_map.mp hp with ⟨q, hq, rfl⟩
  by_cases hqid : (q.1 == id) = true
  · simp [hqid, hv]
  · simp only [Bool.not_eq_true] at hqid
    simp [hqid]
    exact h q hq

theorem nonnegDB_updatePoints (db : DB) (id : Nat) (d : Int)
    (h : nonnegDB db) (hd : 0 ≤ d) : nonnegDB (updatePoints db id d).1 :=
  nonnegDB_dbUpdate db id _ h (add_nonneg (balanceOf_nonneg db id h) hd)

theorem nonnegDB_ensureUser (db : DB) (id : Nat) (h : nonnegDB db) :
    nonnegDB (ensureUser db id) := by
  unfold ensureUser
  cases getUser db id with
  | some x => exact h
  | none =>
      intro p hp
      rcases List.mem_append.mp hp with hp | hp
      · exact h p hp
      · simp only [List.mem_singleton] at hp
        simp [hp]

theorem guessStep_nonneg (db : DB) (ts : Tasks) (u : Nat) (t : String)
    (n : Int) (h : nonnegDB db) : nonnegDB (guessStep db ts u t n).db := by
  unfold guessStep
  cases hp : parseIntJS t with
  | none => exact h
  | some g =>
      by_cases hg : g = n
      · simp only [hg, if_pos rfl]
        exact nonnegDB_updatePoints db u 2 h (by norm_num)
      · simp only [if_neg hg]
        exact h

theorem rewardOf_nonneg (dk : DoneKind) : 0 ≤ rewardOf dk := by
  cases dk <;> norm_num [rewardOf]

theorem doneStep_nonneg (db : DB) (ts : Tasks) (u : Nat) (t : String)
    (h : nonnegDB db) : nonnegDB (doneStep db ts u t).db := by
  unfold doneStep
  split_ifs
  · exact nonnegDB_updatePoints db u _ h (rewardOf_nonneg _)
  · exact h

theorem commandStep_nonneg (db : DB) (ts : Tasks) (u : Nat) (t : String)
    (r : ℚ) (h : nonnegDB db) : nonnegDB (commandStep db ts u t r).db := by
  unfold commandStep
  split_ifs <;>
    first
      | exact h
      | exact nonnegDB_ensureUser db u h
      | exact nonnegDB_updatePoints db u 1 h (by norm_num)
      | exact doneStep_nonneg db ts u t h

theorem handleText_nonneg (db : DB) (ts : Tasks) (u : Nat) (t : String)
    (r : ℚ) (h : nonnegDB db) : nonnegDB (handleText db ts u t r).db := by
  unfold handleText
  cases hp : tasksGet ts u with
  | none => exact commandStep_nonneg db ts u t r h
  | some task =>
      cases task with
      | video => exact commandStep_nonneg db ts u t r h
      | ad => exact commandStep_nonneg db ts u t r h
      | guess n => exact guessStep_nonneg db ts u t n h

theorem runEvents_nonneg (evs : List Event) (db : DB) (ts : Tasks)
    (h : nonnegDB db) : nonnegDB (runEvents db ts evs).1 := by
  induction evs generalizing db ts with
  | nil => exact h
  | cons e rest ih =>
      exact ih _ _ (handleText_nonneg db ts e.chatId (jsTrim e.text) e.rand h)

/-! ### Prefix-dispatch lemmas -/

theorem listPre_idx (p l : List Char) (h : listPre p l = true) (i : Nat)
    (c : Char) (hp : p[i]? = some c) : l[i]? = some c := by
  induction p generalizing l i with
  | nil => simp at hp
  | cons a p ih =>
      cases l with
      | nil => simp [listPre] at h
      | cons b l =>
          simp only [listPre, Bool.and_eq_true, beq_iff_eq] at h
          obtain ⟨rfl, h2⟩ := h
          cases i with
          | zero => simpa using hp
          | succ j =>
              simp only [List.getElem?_cons_succ] at hp ⊢
              exact ih l h2 j hp

theorem sStarts_false_second (t p : String) (c c' : Char)
    (ht : t.toList[1]? = some c) (hp : p.toList[1]? = some c') (hne : c ≠ c') :
    sStarts t p = false := by
  cases hs : sStarts t p
  · rfl
  · unfold sStarts at hs
    have h2 := listPre_idx p.toList t.toList hs 1 c' hp
    rw [ht] at h2
    exact absurd (Option.some.inj h2) hne

/-! ### Dispatch reduction lemmas -/

theorem handleText_guess (db : DB) (ts : Tasks) (u : Nat) (t : String)
    (r : ℚ) (n : Int) (hp : tasksGet ts u = some (PendingTask.guess n)) :
    handleText db ts u t r = guessStep db ts u t n := by
  unfold handleText
  rw [hp]

theorem handleText_not_guess (db : DB) (ts : Tasks) (u : Nat) (t : String)
    (r : ℚ) (hp : ∀ m, tasksGet ts u ≠ some (PendingTask.guess m)) :
    handleText db ts u t r = commandStep db ts u t r := by
  unfold handleText
  cases hc : tasksGet ts u with
  | none => rfl
  | some task =>
      cases task with
      | video => rfl
      | ad => rfl
      | guess m => exact absurd hc (hp m)

theorem guessStep_some (db : DB) (ts : Tasks) (u : Nat) (t : String)
    (n g : Int) (h : parseIntJS t = some g) :
    guessStep db ts u t n =
      if g = n then
        { db := (updatePoints db u 2).1, tasks := tasksDel ts u,
          reply := Reply.correctGuess (updatePoints db u 2).2, delta := 2 }
      else
        { db := db, tasks := ts, reply := Reply.wrongGuess, delta := 0 } := by
  unfold guessStep
  rw [h]

theorem guessStep_none (db : DB) (ts : Tasks) (u : Nat) (t : String)
    (n : Int) (h : parseIntJS t = none) :
    guessStep db ts u t n =
      { db := db, tasks := ts, reply := Reply.guessGuidance, delta := 0 } := by
  unfold guessStep
  rw [h]

/-! ### Serialized-increment lemmas (the behavior the ledger contract mandates) -/

theorem updatePoints_getUser_self (db : DB) (u : Nat) (d x : Int)
    (h : getUser db u = some x) :
    getUser (updatePoints db u d).1 u = some (x + d) := by
  have hb : balanceOf db u = x := by
    unfold balanceOf
    rw [h]
    rfl
  unfold updatePoints
  rw [hb]
  exact getUser_dbUpdate_self db u (x + d) x h

theorem iterIncr_getUser (u : Nat) (n : Nat) (db : DB) (x : Int)
    (h : getUser db u = some x) :
    getUser (iterIncr u n db) u = some (x + n) := by
  induction n generalizing db x with
  | zero => simpa using h
  | succ m ih =>
      have h1 : getUser (updatePoints db u 1).1 u = some (x + 1) :=
        updatePoints_getUser_self db u 1 x h
      have h2 := ih (updatePoints db u 1).1 (x + 1) h1
      unfold iterIncr
      rw [h2]
      congr 1
      push_cast
      ring

theorem serialized_increments_exact (u : Nat) (n : Nat) :
    balanceOf (iterIncr u n [(u, 0)]) u = n := by
  have h0 : getUser [(u, 0)] u = some 0 := by
    rw [getUser_cons, if_pos rfl]
  have := iterIncr_getUser u n [(u, 0)] 0 h0
  unfold balanceOf
  rw [this]
  simp

/-! ### Claim theorems -/

/-- C1: the claim states that all ledger mutations for one user are
serialized, so that two concurrent `applyDelta(u, +1)` calls from balance 0
end at balance 2. The source's `updatePoints` (lines 117-129) is a
read-then-write pair over two separate store calls; interleaving the two
reads before the two writes completes both invocations yet leaves the
balance at 1 — a lost update. The same two invocations run serially do end
at 2, which is what the spec's §4.3 contract mandates. -/
theorem concurrent_applyDelta_loses_update :
    (runSched 7 [(7, 0)]
        [{ delta := 1, phase := Phase.ready },
         { delta := 1, phase := Phase.ready }] [0, 1, 0, 1]).1 = [(7, 1)] ∧
    (runSched 7 [(7, 0)]
        [{ delta := 1, phase := Phase.ready },
         { delta := 1, phase := Phase.ready }] [0, 1, 0, 1]).2 =
      [{ delta := 1, phase := Phase.finished },
       { delta := 1, phase := Phase.finished }] ∧
    balanceOf (runSched 7 [(7, 0)]
        [{ delta := 1, phase := Phase.ready },
         { delta := 1, phase := Phase.ready }] [0, 1, 0, 1]).1 7 ≠ 2 ∧
    (runSched 7 [(7, 0)]
        [{ delta := 1, phase := Phase.ready },
         { delta := 1, phase := Phase.ready }] [0, 0, 1, 1]).1 = [(7, 2)] := by
  decide

/-- C2: the claim states that a point-mutating first contact creates the
ledger row lazily with the applied delta (Click by a fresh user persists
balance 1). In the source, `/click` calls `updatePoints` without
`ensureUser`; on a user with no row, the `UPDATE ... eq(telegram_id)`
matches nothing, so no row is created and nothing is persisted, while the
reply still announces "Total points: 1" — and a subsequent `/points`
(which does get-or-create) reports 0. -/
theorem click_first_contact_persists_nothing :
    (handleText [] [] 7 "/click" 0).reply = Reply.clickMsg 1 ∧
    (handleText [] [] 7 "/click" 0).db = [] ∧
    getUser (handleText [] [] 7 "/click" 0).db 7 = none ∧
    (handleText (handleText [] [] 7 "/click" 0).db [] 7 "/points" 0).reply =
      Reply.pointsMsg 0 := by
  decide

/-- C3 counterexample: the claim states that "3.5" (not a valid base-10
integer) is never treated as a guess attempt while a Guess task is pending.
JavaScript `parseInt("3.5", 10)` is `3`, not `NaN`, so with Guess(3)
pending the input "3.5" is consumed as a correct guess: delta +2, the task
is cleared, and the reply is the success message — not the
numeric-guidance message with delta 0. -/
theorem malformed_float_text_treated_as_guess :
    parseIntJS "3.5" = some 3 ∧
    handleText [(7, 0)] [(7, PendingTask.guess 3)] 7 "3.5" 0 =
      { db := [(7, 2)], tasks := [], reply := Reply.correctGuess 2,
        delta := 2 } := by
  decide

/-- C3 (amended): while a Guess task is pending, text on which
`parseInt(text, 10)` yields `NaN` (no leading optional-sign digit run, e.g.
"abc") is not treated as a guess attempt: the engine replies with the
numeric-guidance message, applies delta 0, and leaves the pending Guess
task and the ledger unchanged. Text with a valid leading integer (such as
"3.5") is instead treated as a guess of that integer prefix. -/
theorem guess_pending_nan_guidance (db : DB) (ts : Tasks) (u : Nat)
    (t : String) (r : ℚ) (n : Int)
    (hp : tasksGet ts u = some (PendingTask.guess n))
    (hn : parseIntJS t = none) :
    handleText db ts u t r =
      { db := db, tasks := ts, reply := Reply.guessGuidance, delta := 0 } := by
  rw [handleText_guess db ts u t r n hp]
  exact guessStep_none db ts u t n hn

/-- Witness for the amended C3 at a concrete input: "abc" while Guess(3)
is pending. -/
theorem guess_pending_nan_guidance_witness :
    (tasksGet [(7, PendingTask.guess 3)] 7 = some (PendingTask.guess 3) ∧
      parseIntJS "abc" = none) ∧
    handleText [(7, 0)] [(7, PendingTask.guess 3)] 7 "abc" 0 =
      { db := [(7, 0)], tasks := [(7, PendingTask.guess 3)],
        reply := Reply.guessGuidance, delta := 0 } :=
  ⟨⟨by decide, by decide⟩,
    guess_pending_nan_guidance [(7, 0)] [(7, PendingTask.guess 3)] 7 "abc" 0 3
      (by decide) (by decide)⟩

/-- C5: with Guess(target) pending, submitting text parsing to the integer
n with n = target moves the state to Idle (the task entry is deleted),
applies delta +2, and replies with success and the new total
(current balance + 2); with n ≠ target the state, the ledger, and the
balance are unchanged and the delta is 0, with the wrong-guess reply. -/
theorem guess_resolution (db : DB) (ts : Tasks) (u : Nat) (t : String)
    (r : ℚ) (n target : Int)
    (hp : tasksGet ts u = some (PendingTask.guess target))
    (hn : parseIntJS t = some n) :
    (n = target →
      handleText db ts u t r =
        { db := (updatePoints db u 2).1, tasks := tasksDel ts u,
          reply := Reply.correctGuess (balanceOf db u + 2), delta := 2 } ∧
      tasksGet (handleText db ts u t r).tasks u = none) ∧
    (n ≠ target →
      handleText db ts u t r =
        { db := db, tasks := ts, reply := Reply.wrongGuess, delta := 0 }) := by
  rw [handleText_guess db ts u t r target hp,
    guessStep_some db ts u t target n hn]
  constructor
  · intro he
    rw [if_pos he]
    exact ⟨rfl, tasksGet_del_self ts u⟩
  · intro he
    rw [if_neg he]

/-- Witness for C5 at concrete inputs: Guess(3) pending with balance 0;
"3" succeeds, "4" fails. -/
theorem guess_resolution_witness :
    ((tasksGet [(7, PendingTask.guess 3)] 7 = some (PendingTask.guess 3) ∧
        parseIntJS "3" = some 3) ∧
      ((3 : Int) = 3 →
        handleText [(7, 0)] [(7, PendingTask.guess 3)] 7 "3" 0 =
          { db := (updatePoints [(7, 0)] 7 2).1,
            tasks := tasksDel [(7, PendingTask.guess 3)] 7,
            reply := Reply.correctGuess (balanceOf [(7, 0)] 7 + 2),
            delta := 2 } ∧
        tasksGet (handleText [(7, 0)] [(7, PendingTask.guess 3)] 7 "3" 0).tasks
          7 = none)) ∧
    ((parseIntJS "4" = some 4) ∧
      ((4 : Int) ≠ 3 →
        handleText [(7, 0)] [(7, PendingTask.guess 3)] 7 "4" 0 =
          { db := [(7, 0)], tasks := [(7, PendingTask.guess 3)],
            reply := Reply.wrongGuess, delta := 0 })) :=
  ⟨⟨⟨by decide, by decide⟩,
      (guess_resolution [(7, 0)] [(7, PendingTask.guess 3)] 7 "3" 0 3 3
          (by decide) (by decide)).1⟩,
    ⟨by decide,
      (guess_resolution [(7, 0)] [(7, PendingTask.guess 3)] 7 "4" 0 4 3
          (by decide) (by decide)).2⟩⟩

/-- C6: while a Guess task is pending the guess branch runs before any
command branch, and every input on which `parseInt` yields `NaN` —
including recognized command words such as "/start" or "/click" — gets the
numeric-guidance reply, triggers no other command's behavior, applies
delta 0, and leaves the pending task, the stores, and every balance
unchanged. -/
theorem guess_precedence_consumes_input (db : DB) (ts : Tasks) (u : Nat)
    (t : String) (r : ℚ) (n : Int)
    (hp : tasksGet ts u = some (PendingTask.guess n))
    (hn : parseIntJS t = none) :
    (handleText db ts u t r).reply = Reply.guessGuidance ∧
    (handleText db ts u t r).delta = 0 ∧
    (handleText db ts u t r).tasks = ts ∧
    (handleText db ts u t r).db = db ∧
    ∀ v, balanceOf (handleText db ts u t r).db v = balanceOf db v := by
  rw [handleText_guess db ts u t r n hp, guessStep_none db ts u t n hn]
  exact ⟨rfl, rfl, rfl, rfl, fun v => rfl⟩

/-- Witness for C6 at a concrete input: the recognized command word
"/click" sent while Guess(3) is pending. -/
theorem guess_precedence_consumes_input_witness :
    (tasksGet [(7, PendingTask.guess 3)] 7 = some (PendingTask.guess 3) ∧
      parseIntJS "/click" = none) ∧
    (handleText [(7, 5)] [(7, PendingTask.guess 3)] 7 "/click" 0).reply =
        Reply.guessGuidance ∧
    (handleText [(7, 5)] [(7, PendingTask.guess 3)] 7 "/click" 0).delta = 0 ∧
    (handleText [(7, 5)] [(7, PendingTask.guess 3)] 7 "/click" 0).tasks =
        [(7, PendingTask.guess 3)] ∧
    (handleText [(7, 5)] [(7, PendingTask.guess 3)] 7 "/click" 0).db =
        [(7, 5)] ∧
    ∀ v, balanceOf (handleText [(7, 5)] [(7, PendingTask.guess 3)] 7
        "/click" 0).db v = balanceOf [(7, 5)] v :=
  ⟨⟨by decide, by decide⟩,
    guess_precedence_consumes_input [(7, 5)] [(7, PendingTask.guess 3)] 7
      "/click" 0 3 (by decide) (by decide)⟩

/-- C7 counterexample: the claim quantifies over every user whose pending
task is not of the kind named by the `/done` command — which includes a
pending Guess. But with Guess(3) pending, "/done ad" is consumed by the
guess branch (its `parseInt` is `NaN`) and gets the numeric-guidance
reply, not "no pending ad task". -/
theorem done_during_guess_gets_guidance :
    tasksGet [(7, PendingTask.guess 3)] 7 ≠ some PendingTask.ad ∧
    (handleText [(7, 0)] [(7, PendingTask.guess 3)] 7 "/done ad" 0).reply =
      Reply.guessGuidance ∧
    (handleText [(7, 0)] [(7, PendingTask.guess 3)] 7 "/done ad" 0).reply ≠
      Reply.noPending DoneKind.ad := by
  decide

/-- C7 (amended): for every user whose pending task is neither a Guess nor
of the kind named by the `/done video` / `/done ad` command (including no
pending task at all), the engine replies "no pending (kind) task", applies
delta 0, and leaves the stores — in particular any existing pending task —
unchanged; consequently in the scenario `/ad` then `/done ad` twice, the
second `/done ad` replies "no pending ad task" with delta 0. (When a Guess
is pending the input is instead consumed by the guess branch.) -/
theorem done_wrong_kind_noop (db : DB) (ts : Tasks) (u : Nat) (t : String)
    (r : ℚ)
    (hd : sStarts t "/done video" = true ∨ sStarts t "/done ad" = true)
    (hq : ∀ m, tasksGet ts u ≠ some (PendingTask.guess m))
    (hm : taskKindMatches (tasksGet ts u) (doneKindOf t) = false) :
    handleText db ts u t r =
      { db := db, tasks := ts, reply := Reply.noPending (doneKindOf t),
        delta := 0 } ∧
    (handleText
        (runEvents [] [] [⟨7, "/ad", 0⟩, ⟨7, "/done ad", 0⟩]).1
        (runEvents [] [] [⟨7, "/ad", 0⟩, ⟨7, "/done ad", 0⟩]).2
        7 "/done ad" 0).reply = Reply.noPending DoneKind.ad ∧
    (handleText
        (runEvents [] [] [⟨7, "/ad", 0⟩, ⟨7, "/done ad", 0⟩]).1
        (runEvents [] [] [⟨7, "/ad", 0⟩, ⟨7, "/done ad", 0⟩]).2
        7 "/done ad" 0).delta = 0 := by
  refine ⟨?_, by decide, by decide⟩
  rw [handleText_not_guess db ts u t r hq]
  have ht : t.toList[1]? = some 'd' := by
    rcases hd with h | h
    · unfold sStarts at h
      exact listPre_idx _ _ h 1 'd' (by decide)
    · unfold sStarts at h
      exact listPre_idx _ _ h 1 'd' (by decide)
  have h1 : sStarts t "/start" = false :=
    sStarts_false_second t "/start" 'd' 's' ht (by decide) (by decide)
  have h2 : sStarts t "/points" = false :=
    sStarts_false_second t "/points" 'd' 'p' ht (by decide) (by decide)
  have h3 : sStarts t "/click" = false :=
    sStarts_false_second t "/click" 'd' 'c' ht (by decide) (by decide)
  have h4 : sStarts t "/video" = false :=
    sStarts_false_second t "/video" 'd' 'v' ht (by decide) (by decide)
  have h5 : sStarts t "/ad" = false :=
    sStarts_false_second t "/ad" 'd' 'a' ht (by decide) (by decide)
  have h6 : (sStarts t "/done video" || sStarts t "/done ad") = true := by
    rcases hd with h | h <;> simp [h]
  unfold commandStep
  rw [h1, h2, h3, h4, h5, h6]
  simp only [Bool.false_eq_true, if_false, if_true]
  unfold doneStep
  rw [hm]
  simp only [Bool.false_eq_true, if_false]

/-- Witness for the amended C7 at a concrete input: "/done ad" with a
pending Video task — the task is retained and the reply names the ad
kind. -/
theorem done_wrong_kind_noop_witness :
    ((sStarts "/done ad" "/done video" = true ∨
        sStarts "/done ad" "/done ad" = true) ∧
      (∀ m, tasksGet [(7, PendingTask.video)] 7 ≠
        some (PendingTask.guess m)) ∧
      taskKindMatches (tasksGet [(7, PendingTask.video)] 7)
        (doneKindOf "/done ad") = false) ∧
    handleText [(7, 0)] [(7, PendingTask.video)] 7 "/done ad" 0 =
      { db := [(7, 0)], tasks := [(7, PendingTask.video)],
        reply := Reply.noPending (doneKindOf "/done ad"), delta := 0 } ∧
    (handleText
        (runEvents [] [] [⟨7, "/ad", 0⟩, ⟨7, "/done ad", 0⟩]).1
        (runEvents [] [] [⟨7, "/ad", 0⟩, ⟨7, "/done ad", 0⟩]).2
        7 "/done ad" 0).reply = Reply.noPending DoneKind.ad ∧
    (handleText
        (runEvents [] [] [⟨7, "/ad", 0⟩, ⟨7, "/done ad", 0⟩]).1
        (runEvents [] [] [⟨7, "/ad", 0⟩, ⟨7, "/done ad", 0⟩]).2
        7 "/done ad" 0).delta = 0 :=
  ⟨⟨Or.inr (by decide), by intro m h; simp [tasksGet, List.find?] at h,
      by decide⟩,
    done_wrong_kind_noop [(7, 0)] [(7, PendingTask.video)] 7 "/done ad" 0
      (Or.inr (by decide)) (by intro m h; simp [tasksGet, List.find?] at h)
      (by decide)⟩

/-- C8: on a `/guess` command (with the `Math.random()` draw modelled as a
rational input in [0,1)), the chosen target `⌊rand·5⌋ + 1` lies in [1,5],
the user's pending task becomes Guess of that target — replacing any prior
Video/Ad task — and the ledger delta is 0 with the ledger untouched. -/
theorem begin_guess_range (db : DB) (ts : Tasks) (u : Nat) (t : String)
    (rand : ℚ)
    (hg : sStarts t "/guess" = true)
    (hq : ∀ m, tasksGet ts u ≠ some (PendingTask.guess m))
    (h0 : 0 ≤ rand) (h1 : rand < 1) :
    handleText db ts u t rand =
      { db := db,
        tasks := tasksSet ts u (PendingTask.guess (⌊rand * 5⌋ + 1)),
        reply := Reply.beginGuessPrompt, delta := 0 } ∧
    1 ≤ ⌊rand * 5⌋ + 1 ∧ ⌊rand * 5⌋ + 1 ≤ 5 ∧
    tasksGet (handleText db ts u t rand).tasks u =
      some (PendingTask.guess (⌊rand * 5⌋ + 1)) := by
  have ht : t.toList[1]? = some 'g' := by
    unfold sStarts at hg
    exact listPre_idx _ _ hg 1 'g' (by decide)
  have h1' : sStarts t "/start" = false :=
    sStarts_false_second t "/start" 'g' 's' ht (by decide) (by decide)
  have h2' : sStarts t "/points" = false :=
    sStarts_false_second t "/points" 'g' 'p' ht (by decide) (by decide)
  have h3' : sStarts t "/click" = false :=
    sStarts_false_second t "/click" 'g' 'c' ht (by decide) (by decide)
  have h4' : sStarts t "/video" = false :=
    sStarts_false_second t "/video" 'g' 'v' ht (by decide) (by decide)
  have h5' : sStarts t "/ad" = false :=
    sStarts_false_second t "/ad" 'g' 'a' ht (by decide) (by decide)
  have h6a : sStarts t "/done video" = false :=
    sStarts_false_second t "/done video" 'g' 'd' ht (by decide) (by decide)
  have h6b : sStarts t "/done ad" = false :=
    sStarts_false_second t "/done ad" 'g' 'd' ht (by decide) (by decide)
  have hmain : handleText db ts u t rand =
      { db := db,
        tasks := tasksSet ts u (PendingTask.guess (⌊rand * 5⌋ + 1)),
        reply := Reply.beginGuessPrompt, delta := 0 } := by
    rw [handleText_not_guess db ts u t rand hq]
    unfold commandStep
    rw [h1', h2', h3', h4', h5', h6a, h6b, hg]
    simp only [Bool.false_eq_true, Bool.or_self, if_false, if_true]
  have hfl0 : (0 : Int) ≤ ⌊rand * 5⌋ := by
    apply Int.floor_nonneg.mpr
    positivity
  have hfl5 : ⌊rand * 5⌋ < 5 := by
    apply Int.floor_lt.mpr
    push_cast
    nlinarith
  refine ⟨hmain, by omega, by omega, ?_⟩
  rw [hmain]
  exact tasksGet_set_self ts u (PendingTask.guess (⌊rand * 5⌋ + 1))

/-- Witness for C8 at a concrete input: "/guess" with a pending Video task
and draw 1/2; the chosen target is ⌊5/2⌋ + 1 = 3. -/
theorem begin_guess_range_witness :
    (sStarts "/guess" "/guess" = true ∧
      (∀ m, tasksGet [(7, PendingTask.video)] 7 ≠
        some (PendingTask.guess m)) ∧
      (0 : ℚ) ≤ 1 / 2 ∧ (1 / 2 : ℚ) < 1) ∧
    (handleText [] [(7, PendingTask.video)] 7 "/guess" (1 / 2) =
      { db := [],
        tasks := tasksSet [(7, PendingTask.video)] 7
          (PendingTask.guess (⌊(1 / 2 : ℚ) * 5⌋ + 1)),
        reply := Reply.beginGuessPrompt, delta := 0 } ∧
    1 ≤ ⌊(1 / 2 : ℚ) * 5⌋ + 1 ∧ ⌊(1 / 2 : ℚ) * 5⌋ + 1 ≤ 5 ∧
    tasksGet (handleText [] [(7, PendingTask.video)] 7 "/guess"
        (1 / 2)).tasks 7 =
      some (PendingTask.guess (⌊(1 / 2 : ℚ) * 5⌋ + 1))) :=
  ⟨⟨by decide, by intro m h; simp [tasksGet, List.find?] at h,
      by norm_num, by norm_num⟩,
    begin_guess_range [] [(7, PendingTask.video)] 7 "/guess" (1 / 2)
      (by decide) (by intro m h; simp [tasksGet, List.find?] at h)
      (by norm_num) (by norm_num)⟩

/-- One `/start` or `/points` invocation applies delta 0, leaves the
pending-task store untouched, and preserves every observed balance
(`ensureUser` at most inserts a fresh row with `points = 0`). -/
theorem handleText_start_points (db : DB) (ts : Tasks) (u : Nat) (r : ℚ)
    (t : String) (h : t = "/start" ∨ t = "/points") :
    (handleText db ts u t r).delta = 0 ∧
    (handleText db ts u t r).tasks = ts ∧
    ∀ v, balanceOf (handleText db ts u t r).db v = balanceOf db v := by
  rcases h with rfl | rfl
  · by_cases hg : ∃ m, tasksGet ts u = some (PendingTask.guess m)
    · obtain ⟨m, hm⟩ := hg
      rw [handleText_guess db ts u _ r m hm, guessStep_none db ts u _ m
        (by decide)]
      exact ⟨rfl, rfl, fun v => rfl⟩
    · push_neg at hg
      rw [handleText_not_guess db ts u _ r hg]
      refine ⟨rfl, rfl, fun v => ?_⟩
      show balanceOf (ensureUser db u) v = balanceOf db v
      exact balanceOf_ensureUser db u v
  · by_cases hg : ∃ m, tasksGet ts u = some (PendingTask.guess m)
    · obtain ⟨m, hm⟩ := hg
      rw [handleText_guess db ts u _ r m hm, guessStep_none db ts u _ m
        (by decide)]
      exact ⟨rfl, rfl, fun v => rfl⟩
    · push_neg at hg
      rw [handleText_not_guess db ts u _ r hg]
      refine ⟨rfl, rfl, fun v => ?_⟩
      show balanceOf (ensureUser db u) v = balanceOf db v
      exact balanceOf_ensureUser db u v

/-- Running any sequence of `/start` / `/points` events preserves every
balance and the whole pending-task store. -/
theorem runEvents_start_points (evs : List Event) (db : DB) (ts : Tasks)
    (h : ∀ e ∈ evs, e.text = "/start" ∨ e.text = "/points") :
    (∀ v, balanceOf (runEvents db ts evs).1 v = balanceOf db v) ∧
    (runEvents db ts evs).2 = ts := by
  induction evs generalizing db ts with
  | nil => exact ⟨fun v => rfl, rfl⟩
  | cons e rest ih =>
      have he := h e (List.mem_cons_self e rest)
      have hrest : ∀ e' ∈ rest, e'.text = "/start" ∨ e'.text = "/points" :=
        fun e' h' => h e' (List.mem_cons_of_mem e h')
      have htrim : jsTrim e.text = e.text := by
        rcases he with h' | h' <;> rw [h'] <;> decide
      have hh : handle db ts e.chatId e.text e.rand =
          handleText db ts e.chatId e.text e.rand := by
        unfold handle
        rw [htrim]
      obtain ⟨hd, htk, hb⟩ :=
        handleText_start_points db ts e.chatId e.rand e.text he
      have hrun : runEvents db ts (e :: rest) =
          runEvents (handleText db ts e.chatId e.text e.rand).db ts rest := by
        have h0 : runEvents db ts (e :: rest) =
            runEvents (handle db ts e.chatId e.text e.rand).db
              (handle db ts e.chatId e.text e.rand).tasks rest := rfl
        rw [h0, hh, htk]
      obtain ⟨ihb, iht⟩ :=
        ih (handleText db ts e.chatId e.text e.rand).db ts hrest
      rw [hrun]
      exact ⟨fun v => (ihb v).trans (hb v), iht⟩

/-- C9: handling `/start` or `/points` any number of times with no
intervening mutating command applies delta 0 each time, reports an
identical balance, and leaves both the effective ledger balance of every
user and the pending-task store unchanged. -/
theorem start_points_idempotent (db : DB) (ts : Tasks) (u : Nat)
    (t : String) (r : ℚ) (h : t = "/start" ∨ t = "/points") :
    (handleText db ts u t r).delta = 0 ∧
    (handleText db ts u t r).tasks = ts ∧
    (∀ v, balanceOf (handleText db ts u t r).db v = balanceOf db v) ∧
    ∀ evs : List Event,
      (∀ e ∈ evs, e.text = "/start" ∨ e.text = "/points") →
      (∀ v, balanceOf (runEvents db ts evs).1 v = balanceOf db v) ∧
      (runEvents db ts evs).2 = ts := by
  obtain ⟨h1, h2, h3⟩ := handleText_start_points db ts u r t h
  exact ⟨h1, h2, h3, fun evs he => runEvents_start_points evs db ts he⟩

/-- Witness for C9 at a concrete input: "/start" for user 7 with balance 5
and a pending Video task. -/
theorem start_points_idempotent_witness :
    ("/start" = "/start" ∨ "/start" = "/points") ∧
    ((handleText [(7, 5)] [(7, PendingTask.video)] 7 "/start" 0).delta = 0 ∧
    (handleText [(7, 5)] [(7, PendingTask.video)] 7 "/start" 0).tasks =
      [(7, PendingTask.video)] ∧
    (∀ v, balanceOf (handleText [(7, 5)] [(7, PendingTask.video)] 7
        "/start" 0).db v = balanceOf [(7, 5)] v) ∧
    ∀ evs : List Event,
      (∀ e ∈ evs, e.text = "/start" ∨ e.text = "/points") →
      (∀ v, balanceOf (runEvents [(7, 5)] [(7, PendingTask.video)] evs).1 v =
        balanceOf [(7, 5)] v) ∧
      (runEvents [(7, 5)] [(7, PendingTask.video)] evs).2 =
        [(7, PendingTask.video)]) :=
  ⟨Or.inl rfl,
    start_points_idempotent [(7, 5)] [(7, PendingTask.video)] 7 "/start" 0
      (Or.inl rfl)⟩

/-- C10: one invocation for user A touches at most A's ledger row and A's
pending-task entry: for every other identity B, both B's ledger row and
B's pending task are unchanged, whatever the message text, stores, and
random draw. -/
theorem per_user_isolation (db : DB) (ts : Tasks) (A : Nat) (t : String)
    (r : ℚ) (B : Nat) (h : B ≠ A) :
    getUser (handleText db ts A t r).db B = getUser db B ∧
    tasksGet (handleText db ts A t r).tasks B = tasksGet ts B := by
  by_cases hg : ∃ m, tasksGet ts A = some (PendingTask.guess m)
  · obtain ⟨m, hm⟩ := hg
    rw [handleText_guess db ts A t r m hm]
    cases hn : parseIntJS t with
    | none =>
        rw [guessStep_none db ts A t m hn]
        exact ⟨rfl, rfl⟩
    | some g =>
        rw [guessStep_some db ts A t m g hn]
        by_cases hgm : g = m
        · rw [if_pos hgm]
          exact ⟨getUser_dbUpdate_ne db A B _ h, tasksGet_del_ne ts A B h⟩
        · rw [if_neg hgm]
          exact ⟨rfl, rfl⟩
  · push_neg at hg
    rw [handleText_not_guess db ts A t r hg]
    unfold commandStep
    split_ifs with hs1 hs2 hs3 hs4 hs5 hs6 hs7
    · exact ⟨getUser_ensureUser_ne db A B h, rfl⟩
    · exact ⟨getUser_ensureUser_ne db A B h, rfl⟩
    · exact ⟨getUser_dbUpdate_ne db A B _ h, rfl⟩
    · exact ⟨rfl, tasksGet_set_ne ts A B _ h⟩
    · exact ⟨rfl, tasksGet_set_ne ts A B _ h⟩
    · unfold doneStep
      split_ifs with hm
      · exact ⟨getUser_dbUpdate_ne db A B _ h, tasksGet_del_ne ts A B h⟩
      · exact ⟨rfl, rfl⟩
    · exact ⟨rfl, tasksGet_set_ne ts A B _ h⟩
    · exact ⟨rfl, rfl⟩

/-- Witness for C10 at a concrete input: user 7 resolves a pending Video
task while user 8 keeps both its balance row and its pending task. -/
theorem per_user_isolation_witness :
    (8 ≠ 7) ∧
    getUser (handleText [(7, 0), (8, 4)]
        [(7, PendingTask.video), (8, PendingTask.ad)] 7 "/done video" 0).db
      8 = getUser [(7, 0), (8, 4)] 8 ∧
    tasksGet (handleText [(7, 0), (8, 4)]
        [(7, PendingTask.video), (8, PendingTask.ad)] 7 "/done video" 0).tasks
      8 = tasksGet [(7, PendingTask.video), (8, PendingTask.ad)] 8 :=
  ⟨by decide,
    per_user_isolation [(7, 0), (8, 4)]
      [(7, PendingTask.video), (8, PendingTask.ad)] 7 "/done video" 0 8
      (by decide)⟩

/-- Every ledger delta the handler can pass to `updatePoints` is zero or
positive (0, +1, +2, +3, +5). -/
theorem handleText_delta_nonneg (db : DB) (ts : Tasks) (u : Nat)
    (t : String) (r : ℚ) : 0 ≤ (handleText db ts u t r).delta := by
  by_cases hg : ∃ m, tasksGet ts u = some (PendingTask.guess m)
  · obtain ⟨m, hm⟩ := hg
    rw [handleText_guess db ts u t r m hm]
    cases hn : parseIntJS t with
    | none =>
        rw [guessStep_none db ts u t m hn]
    | some g =>
        rw [guessStep_some db ts u t m g hn]
        split_ifs
        · exact zero_le_two
        · exact le_refl 0
  · push_neg at hg
    rw [handleText_not_guess db ts u t r hg]
    unfold commandStep
    split_ifs <;>
      first
        | exact le_refl 0
        | exact zero_le_one
        | (unfold doneStep
           split_ifs
           · exact rewardOf_nonneg _
           · exact le_refl 0)

/-- C4: starting from a fresh state (balance 0, no pending task), after
any prefix of any finite sequence of inbound events no balance is ever
negative — and indeed every ledger delta the engine applies is zero or
positive. -/
theorem points_never_negative :
    (∀ (db : DB) (ts : Tasks) (c : Nat) (t : String) (r : ℚ),
      0 ≤ (handleText db ts c t r).delta) ∧
    ∀ (u : Nat) (evs : List Event) (k : Nat) (v : Nat),
      0 ≤ balanceOf (runEvents [(u, 0)] [] (evs.take k)).1 v := by
  constructor
  · exact handleText_delta_nonneg
  · intro u evs k v
    apply balanceOf_nonneg
    apply runEvents_nonneg
    intro p hp
    simp only [List.mem_singleton] at hp
    rw [hp]

end DrawBot
